import Mathlib

/-
Verification of the code generator in `compiledtrees/code_gen.py`.

The Python module turns sklearn-style decision-tree node arrays into C
source text and drives a compiler/linker over the generated files.  The
shallow embedding below models:

  * `CodeGenerator` (the Emitter): an output string plus an indentation
    counter; `write` appends one indented line, `bracketed` is the scoped
    block helper (`assert self._indent >= 0`, write preamble, indent += 1,
    body, indent -= 1, write postamble).
  * `code_gen_tree` / the inner `recur`: lowering of the node arrays
    (children_left / children_right / feature / threshold / value) into
    nested conditionals.  Python's unbounded recursion is modelled with an
    explicit fuel parameter; numpy index errors, the `-1` leaf sentinel
    test and the `assert tree.value[node].size == 1` are modelled in an
    `Except` monad.  Real-valued thresholds / leaf values are embedded as
    rationals, and Python's `str()` rendering of a number is embedded as
    `toString` (an injective rendering; the decimal details of float repr
    are outside this development).
  * `code_gen_ensemble`, `_gen_tree`: per-tree units named
    `evaluate_<i>` plus the combiner unit.
  * `_compile` / `compile_code_to_object`: modelled as producers of an
    event trace (compiler invocations, the Windows file-of-filenames),
    with temporary-file names modelled deterministically from the input
    names.
-/

namespace CompiledTrees

/-- Errors of a generation / build run: fuel exhaustion stands for
unbounded Python recursion, `badIndex` for a numpy `IndexError`,
`valueSize` for the failed `assert tree.value[node].size == 1`,
`badChild` for a negative (non-sentinel) child index, `indentAssert`
for the failed `assert self._indent >= 0`, and `noCompiler` for the
exception "CXX compiler was not found. You should set CXX environmental
variable" raised by `_compile`. -/
inductive GenErr where
  | fuelOut
  | badIndex
  | valueSize
  | badChild
  | indentAssert
  | noCompiler
deriving DecidableEq, Repr

/-- The `CodeGenerator` state: the bytes written so far and the current
indentation depth (`self._indent`, a Python int, hence `Int`). -/
structure Gen where
  out : String
  indent : Int
deriving DecidableEq, Repr

/-- A fresh `CodeGenerator()`: empty output, indent 0. -/
def Gen.fresh : Gen := ⟨"", 0⟩

/-- Python's `"  " * indent` prefix (two spaces per level). -/
def indentStr : Nat → String
  | 0 => ""
  | n + 1 => "  " ++ indentStr n

/-- `CodeGenerator.write`: append `"  " * indent + line + "\n"`.
Python's `"  " * n` is empty for negative `n`, which `Int.toNat`
reproduces. -/
def Gen.write (g : Gen) (line : String) : Gen :=
  ⟨g.out ++ (indentStr g.indent.toNat ++ (line ++ "\n")), g.indent⟩

/-- `CodeGenerator.bracketed`: assert `indent >= 0`, write the preamble,
increment the indent, run the body, decrement, write the postamble.  As
in the Python context manager, an exception in the body propagates and
skips the decrement and the postamble. -/
def Gen.bracketed (g : Gen) (pre post : String) (body : Gen → Except GenErr Gen) :
    Except GenErr Gen :=
  if g.indent < 0 then .error .indentAssert
  else
    match body ⟨(g.write pre).out, g.indent + 1⟩ with
    | .error e => .error e
    | .ok g3 => .ok (Gen.write ⟨g3.out, g3.indent - 1⟩ post)

/-- Number of newline bytes in a string (used to state that `write`
appends exactly one line). -/
def newlineCount (s : String) : Nat := s.data.count '\n'

/-- The decision-tree node arrays, exactly the five parallel arrays the
Python code reads: `children_left` / `children_right` (`-1` is the leaf
sentinel), `feature` (split feature index; only read at non-leaf nodes,
where sklearn guarantees it is non-negative), `threshold`, and `value`
(the per-node value array; the generator asserts it has size 1 at each
leaf). -/
structure Tree where
  children_left : List Int
  children_right : List Int
  feature : List Nat
  threshold : List ℚ
  value : List (List ℚ)
deriving DecidableEq, Repr

/-- Embedding of Python's `str(x)` / `"{0}".format(x)` for the numeric
threshold and leaf values. -/
def fmtR (q : ℚ) : String := toString q

/-- The statement shape generated for one tree: either `return v;` or an
`if (f[ft] <= th f) { … } else { … }` conditional. -/
inductive Stmt where
  | ret : ℚ → Stmt
  | cond : Nat → ℚ → Stmt → Stmt → Stmt
deriving DecidableEq, Repr

/-- Semantics of a generated statement on a feature vector `f`. -/
def Stmt.eval (f : Nat → ℚ) : Stmt → ℚ
  | .ret v => v
  | .cond ft th l r => if f ft ≤ th then l.eval f else r.eval f

/-- The (depth, line) pairs a statement is printed as, mirroring the
`write`/`bracketed` calls of `recur` in `code_gen_tree`. -/
def Stmt.lines : Stmt → Nat → List (Nat × String)
  | .ret v, ind => [(ind, "return " ++ fmtR v ++ ";")]
  | .cond ft th l r, ind =>
      (ind, "if (f[" ++ toString ft ++ "] <= " ++ fmtR th ++ "f) \x7b") ::
        (l.lines (ind + 1) ++
          ((ind, "\x7d") :: (ind, "else \x7b") ::
            (r.lines (ind + 1) ++ [(ind, "\x7d")])))

/-- Render a list of (depth, line) pairs the way successive
`Gen.write` calls do. -/
def linesToString : List (Nat × String) → String
  | [] => ""
  | (d, l) :: rest => indentStr d ++ (l ++ ("\n" ++ linesToString rest))

/-- Pure description of the recursion in `code_gen_tree.recur`: which
statement tree the writer emits for a given root node.  Shares the exact
leaf test (`children_left[node] == -1`), the value-size assertion and
the index accesses with `recur` below. -/
def lowerTree (t : Tree) : Nat → Nat → Except GenErr Stmt
  | 0, _ => .error .fuelOut
  | fuel + 1, node =>
    match t.children_left[node]? with
    | none => .error .badIndex
    | some cl =>
      if cl = -1 then
        match t.value[node]? with
        | none => .error .badIndex
        | some v =>
          match v with
          | [x] => .ok (.ret x)
          | _ => .error .valueSize
      else
        match t.feature[node]?, t.threshold[node]? with
        | some ft, some th =>
          if 0 ≤ cl then
            match lowerTree t fuel cl.toNat with
            | .error e => .error e
            | .ok l =>
              match t.children_right[node]? with
              | none => .error .badIndex
              | some cr =>
                if 0 ≤ cr then
                  match lowerTree t fuel cr.toNat with
                  | .error e => .error e
                  | .ok r => .ok (.cond ft th l r)
                else .error .badChild
          else .error .badChild
        | _, _ => .error .badIndex

/-- The inner `recur` of `code_gen_tree`: at a leaf
(`children_left[node] == -1`) assert the value size and write
`return <value>;`; otherwise write the
`if (f[<feature>] <= <threshold>f) \x7b` bracketed block around the left
child, then the `else \x7b` block around the right child. -/
def recur (t : Tree) : Nat → Nat → Gen → Except GenErr Gen
  | 0, _, _ => .error .fuelOut
  | fuel + 1, node, g =>
    match t.children_left[node]? with
    | none => .error .badIndex
    | some cl =>
      if cl = -1 then
        match t.value[node]? with
        | none => .error .badIndex
        | some v =>
          match v with
          | [x] => .ok (g.write ("return " ++ fmtR x ++ ";"))
          | _ => .error .valueSize
      else
        match t.feature[node]?, t.threshold[node]? with
        | some ft, some th =>
          match g.bracketed ("if (f[" ++ toString ft ++ "] <= " ++ fmtR th ++ "f) \x7b") "\x7d"
              (fun g2 => if 0 ≤ cl then recur t fuel cl.toNat g2 else .error .badChild) with
          | .error e => .error e
          | .ok g1 =>
            g1.bracketed "else \x7b" "\x7d"
              (fun g2 =>
                match t.children_right[node]? with
                | none => .error .badIndex
                | some cr => if 0 ≤ cr then recur t fuel cr.toNat g2 else .error .badChild)
        | _, _ => .error .badIndex

/-- `EVALUATE_FN_NAME` from the source. -/
def EVALUATE_FN_NAME : String := "evaluate"

/-- `ALWAYS_INLINE` from the source. -/
def ALWAYS_INLINE : String := "__attribute__((__always_inline__))"

/-- `code_gen_tree`: wrap the lowering of node 0 in the
`extern "C"` block and the always-inline function declaration. -/
def code_gen_tree (fuel : Nat) (t : Tree) (evaluate_fn : String) (g : Gen) :
    Except GenErr Gen :=
  g.bracketed "extern \"C\" \x7b" "\x7d" (fun g1 =>
    g1.bracketed (ALWAYS_INLINE ++ " double " ++ evaluate_fn ++ "(float* f) \x7b") "\x7d"
      (fun g2 => recur t fuel 0 g2))

/-- The straightforward recursive interpretation of the node arrays (the
golden model of the spec): at a leaf return the stored scalar, otherwise
compare `f (feature node) ≤ threshold node` and descend left or right. -/
def evaluate_node (t : Tree) (f : Nat → ℚ) : Nat → Nat → Except GenErr ℚ
  | 0, _ => .error .fuelOut
  | fuel + 1, node =>
    match t.children_left[node]? with
    | none => .error .badIndex
    | some cl =>
      if cl = -1 then
        match t.value[node]? with
        | none => .error .badIndex
        | some v =>
          match v with
          | [x] => .ok x
          | _ => .error .valueSize
      else
        match t.feature[node]?, t.threshold[node]? with
        | some ft, some th =>
          if 0 ≤ cl then
            match t.children_right[node]? with
            | none => .error .badIndex
            | some cr =>
              if 0 ≤ cr then
                if f ft ≤ th then evaluate_node t f fuel cl.toNat
                else evaluate_node t f fuel cr.toNat
              else .error .badChild
          else .error .badChild
        | _, _ => .error .badIndex

/-- The (depth, line) pairs of one whole generated tree unit, i.e. the
text of `code_gen_tree` with function name `fn` starting at depth `ind`. -/
def treeLines (fn : String) (ind : Nat) (s : Stmt) : List (Nat × String) :=
  (ind, "extern \"C\" \x7b") ::
    (ind + 1, ALWAYS_INLINE ++ " double " ++ fn ++ "(float* f) \x7b") ::
      (s.lines (ind + 2) ++ [(ind + 1, "\x7d"), (ind, "\x7d")])

/- ## String and line-list helper lemmas -/

@[simp] theorem str_data_append (a b : String) : (a ++ b).data = a.data ++ b.data := rfl

@[simp] theorem str_append_assoc (a b c : String) : a ++ b ++ c = a ++ (b ++ c) := by
  apply String.ext
  rw [str_data_append, str_data_append, str_data_append, str_data_append, List.append_assoc]

@[simp] theorem str_append_empty (a : String) : a ++ "" = a := by
  apply String.ext
  rw [str_data_append]
  show a.data ++ [] = a.data
  simp

@[simp] theorem str_empty_append (a : String) : "" ++ a = a := by
  apply String.ext
  rw [str_data_append]
  show [] ++ a.data = a.data
  simp

@[simp] theorem linesToString_append (xs ys : List (Nat × String)) :
    linesToString (xs ++ ys) = linesToString xs ++ linesToString ys := by
  induction xs with
  | nil => simp [linesToString]
  | cons a xs ih =>
    obtain ⟨d, l⟩ := a
    simp [linesToString, ih]

theorem newlineCount_append (a b : String) :
    newlineCount (a ++ b) = newlineCount a + newlineCount b := by
  simp [newlineCount, List.count_append]

theorem newlineCount_indentStr (n : Nat) : newlineCount (indentStr n) = 0 := by
  induction n with
  | zero => decide
  | succ n ih =>
    show newlineCount ("  " ++ indentStr n) = 0
    rw [newlineCount_append, ih]
    decide

theorem length_indentStr (n : Nat) : (indentStr n).length = 2 * n := by
  induction n with
  | zero => decide
  | succ n ih =>
    show (("  " : String) ++ indentStr n).length = 2 * (n + 1)
    rw [String.length_append, ih]
    have h2 : ("  " : String).length = 2 := rfl
    omega

/- ## Behaviour of `bracketed` on succeeding and failing bodies -/

theorem bracketed_ok (g : Gen) (pre post : String) (body : Gen → Except GenErr Gen)
    (L : List (Nat × String)) (hg : 0 ≤ g.indent)
    (hbody : body ⟨(g.write pre).out, g.indent + 1⟩ =
      .ok ⟨(g.write pre).out ++ linesToString L, g.indent + 1⟩) :
    g.bracketed pre post body =
      .ok ⟨g.out ++ linesToString ((g.indent.toNat, pre) :: (L ++ [(g.indent.toNat, post)])),
           g.indent⟩ := by
  unfold Gen.bracketed
  rw [if_neg (by omega)]
  rw [hbody]
  have h1 : g.indent + 1 - 1 = g.indent := by ring
  simp [Gen.write, linesToString, h1]

theorem bracketed_error (g : Gen) (pre post : String) (body : Gen → Except GenErr Gen)
    (e : GenErr) (hg : 0 ≤ g.indent)
    (hbody : body ⟨(g.write pre).out, g.indent + 1⟩ = .error e) :
    g.bracketed pre post body = .error e := by
  unfold Gen.bracketed
  rw [if_neg (by omega), hbody]

theorem bracketed_ok_gen (g : Gen) (pre post : String) (body : Gen → Except GenErr Gen)
    (L : List (Nat × String)) (R : Except GenErr Gen) (hg : 0 ≤ g.indent)
    (hbody : body ⟨(g.write pre).out, g.indent + 1⟩ =
      .ok ⟨(g.write pre).out ++ linesToString L, g.indent + 1⟩)
    (hR : Except.ok
      (⟨g.out ++ linesToString ((g.indent.toNat, pre) :: (L ++ [(g.indent.toNat, post)])),
        g.indent⟩ : Gen) = R) :
    g.bracketed pre post body = R :=
  (bracketed_ok g pre post body L hg hbody).trans hR

/- ## The writer `recur` emits exactly the rendering of `lowerTree` -/

theorem recur_eq (t : Tree) : ∀ (fuel node : Nat) (s : Stmt) (g : Gen),
    lowerTree t fuel node = .ok s → 0 ≤ g.indent →
    recur t fuel node g = .ok ⟨g.out ++ linesToString (s.lines g.indent.toNat), g.indent⟩ := by
  intro fuel
  induction fuel with
  | zero => intro node s g h; simp [lowerTree] at h
  | succ fuel ih =>
    intro node s g h hg
    unfold lowerTree at h
    unfold recur
    cases hcl : t.children_left[node]? with
    | none => simp [hcl] at h
    | some cl =>
      simp only [hcl] at h ⊢
      by_cases hsent : cl = -1
      · rw [if_pos hsent] at h ⊢
        cases hv : t.value[node]? with
        | none => simp [hv] at h
        | some v =>
          simp only [hv] at h ⊢
          cases v with
          | nil => simp at h
          | cons x vt =>
            cases vt with
            | nil =>
              simp only [Except.ok.injEq] at h
              subst h
              simp [Gen.write, Stmt.lines, linesToString]
            | cons y rest => simp at h
      · rw [if_neg hsent] at h ⊢
        cases hft : t.feature[node]? with
        | none => simp [hft] at h
        | some ft =>
          cases hth : t.threshold[node]? with
          | none => simp [hft, hth] at h
          | some th =>
            simp only [hft, hth] at h ⊢
            by_cases hclpos : 0 ≤ cl
            case neg => rw [if_neg hclpos] at h; simp at h
            case pos =>
            rw [if_pos hclpos] at h
            cases hl : lowerTree t fuel cl.toNat with
            | error e => simp [hl] at h
            | ok l =>
            simp only [hl] at h
            cases hcr : t.children_right[node]? with
            | none => simp [hcr] at h
            | some cr =>
            simp only [hcr] at h
            by_cases hcrpos : 0 ≤ cr
            case neg => rw [if_neg hcrpos] at h; simp at h
            case pos =>
            rw [if_pos hcrpos] at h
            cases hr : lowerTree t fuel cr.toNat with
            | error e => simp [hr] at h
            | ok r =>
            simp only [hr, Except.ok.injEq] at h
            subst h
            have htn : (g.indent + 1).toNat = g.indent.toNat + 1 := by omega
            have hb1 := bracketed_ok g
              ("if (f[" ++ toString ft ++ "] <= " ++ fmtR th ++ "f) \x7b") "\x7d"
              (fun g2 => if 0 ≤ cl then recur t fuel cl.toNat g2 else Except.error GenErr.badChild)
              (l.lines (g.indent.toNat + 1)) hg
              (by
                simp only [if_pos hclpos]
                simpa [htn] using ih cl.toNat l
                  ⟨(g.write ("if (f[" ++ toString ft ++ "] <= " ++ fmtR th ++ "f) \x7b")).out,
                   g.indent + 1⟩ hl (by change (0:Int) ≤ g.indent + 1; omega))
            simp only [hb1]
            have ihr : ∀ g2 : Gen, g2.indent = g.indent + 1 →
                recur t fuel cr.toNat g2 =
                  .ok ⟨g2.out ++ linesToString (r.lines (g.indent.toNat + 1)), g2.indent⟩ := by
              intro g2 hg2
              rw [ih cr.toNat r g2 hr (by omega), hg2, htn]
            apply bracketed_ok_gen _ _ _ _ (r.lines (g.indent.toNat + 1))
            · exact hg
            · simp only [if_pos hcrpos]
              exact ihr _ rfl
            · simp [-String.reduceAppend, Stmt.lines, linesToString]

/- ## `lowerTree` results evaluate like the golden-model interpreter -/

theorem lowerTree_eval (t : Tree) (f : Nat → ℚ) : ∀ (fuel node : Nat) (s : Stmt),
    lowerTree t fuel node = .ok s →
    evaluate_node t f fuel node = .ok (s.eval f) := by
  intro fuel
  induction fuel with
  | zero => intro node s h; simp [lowerTree] at h
  | succ fuel ih =>
    intro node s h
    unfold lowerTree at h
    unfold evaluate_node
    cases hcl : t.children_left[node]? with
    | none => simp [hcl] at h
    | some cl =>
      simp only [hcl] at h ⊢
      by_cases hsent : cl = -1
      · rw [if_pos hsent] at h ⊢
        cases hv : t.value[node]? with
        | none => simp [hv] at h
        | some v =>
          simp only [hv] at h ⊢
          cases v with
          | nil => simp at h
          | cons x vt =>
            cases vt with
            | nil =>
              simp only [Except.ok.injEq] at h
              subst h
              simp [Stmt.eval]
            | cons y rest => simp at h
      · rw [if_neg hsent] at h ⊢
        cases hft : t.feature[node]? with
        | none => simp [hft] at h
        | some ft =>
          cases hth : t.threshold[node]? with
          | none => simp [hft, hth] at h
          | some th =>
            simp only [hft, hth] at h ⊢
            by_cases hclpos : 0 ≤ cl
            case neg => rw [if_neg hclpos] at h; simp at h
            case pos =>
            rw [if_pos hclpos] at h ⊢
            cases hl : lowerTree t fuel cl.toNat with
            | error e => simp [hl] at h
            | ok l =>
            simp only [hl] at h
            cases hcr : t.children_right[node]? with
            | none => simp [hcr] at h
            | some cr =>
            simp only [hcr] at h ⊢
            by_cases hcrpos : 0 ≤ cr
            case neg => rw [if_neg hcrpos] at h; simp at h
            case pos =>
            rw [if_pos hcrpos] at h ⊢
            cases hr : lowerTree t fuel cr.toNat with
            | error e => simp [hr] at h
            | ok r =>
            simp only [hr, Except.ok.injEq] at h
            subst h
            simp only [Stmt.eval]
            by_cases hf : f ft ≤ th
            · rw [if_pos hf, if_pos hf]
              exact ih cl.toNat l hl
            · rw [if_neg hf, if_neg hf]
              exact ih cr.toNat r hr

/- ## The whole generated tree unit -/

theorem code_gen_tree_eq (fuel : Nat) (t : Tree) (fn : String) (g : Gen) (s : Stmt)
    (h : lowerTree t fuel 0 = .ok s) (hg : 0 ≤ g.indent) :
    code_gen_tree fuel t fn g =
      .ok ⟨g.out ++ linesToString (treeLines fn g.indent.toNat s), g.indent⟩ := by
  unfold code_gen_tree
  have htn1 : (g.indent + 1).toNat = g.indent.toNat + 1 := by omega
  have htn2 : (g.indent + 1 + 1).toNat = g.indent.toNat + 2 := by omega
  have hrec : ∀ g2 : Gen, g2.indent = g.indent + 1 + 1 →
      recur t fuel 0 g2 =
        .ok ⟨g2.out ++ linesToString (s.lines (g.indent.toNat + 2)), g2.indent⟩ := by
    intro g2 hg2
    rw [recur_eq t fuel 0 s g2 h (by omega), hg2, htn2]
  apply bracketed_ok_gen _ _ _ _
    ((g.indent.toNat + 1, ALWAYS_INLINE ++ " double " ++ fn ++ "(float* f) \x7b") ::
      (s.lines (g.indent.toNat + 2) ++ [(g.indent.toNat + 1, "\x7d")]))
  · exact hg
  · apply bracketed_ok_gen _ _ _ _ (s.lines (g.indent.toNat + 2))
    · change (0:Int) ≤ g.indent + 1
      omega
    · exact hrec _ rfl
    · simp [htn1]
  · simp [treeLines]

/- ## Sample inputs used by the witnesses -/

/-- A depth-1 tree: root split on `f[9] <= 0.176`, left leaf `0`, right
leaf `1` (the spec's scenario tree). -/
def sampleTree : Tree :=
  ⟨[1, -1, -1], [2, -1, -1], [9, 0, 0], [22/125, 0, 0], [[0], [0], [1]]⟩

/-- The statement `sampleTree` lowers to. -/
def sampleStmt : Stmt := .cond 9 (22/125) (.ret 0) (.ret 1)

/-- A root-leaf tree whose value array has two entries, violating the
`assert tree.value[node].size == 1`. -/
def badLeafTree : Tree := ⟨[-1], [-1], [0], [0], [[1, 2]]⟩

/-- C1: for a well-formed tree (node 0 the root, leaf iff the left-child
entry is -1), `code_gen_tree` lowers node 0 recursively: the emitted text
is exactly the `extern "C"` wrapper plus always-inline declaration around
the rendering of the lowered statement, where `Stmt.lines` prints
`return <value>;` at a leaf and the
`if (f[<feature>] <= <threshold>f)` block around the left lowering,
then the `else` block around the right lowering, at an internal node;
and the lowered statement's evaluation on any feature vector equals
`evaluate_node`, the straightforward recursive interpretation of the
same node arrays. -/
theorem code_gen_tree_golden_equiv (fuel : Nat) (t : Tree) (fn : String) (g : Gen) (s : Stmt)
    (h : lowerTree t fuel 0 = .ok s) (hg : 0 ≤ g.indent) :
    code_gen_tree fuel t fn g =
      .ok ⟨g.out ++ linesToString (treeLines fn g.indent.toNat s), g.indent⟩
    ∧ ∀ f : Nat → ℚ, evaluate_node t f fuel 0 = .ok (s.eval f) :=
  ⟨code_gen_tree_eq fuel t fn g s h hg, fun f => lowerTree_eval t f fuel 0 s h⟩

/-- Witness for C1 at the spec's scenario tree. -/
theorem code_gen_tree_golden_equiv_witness :
    lowerTree sampleTree 2 0 = .ok sampleStmt ∧
    (code_gen_tree 2 sampleTree EVALUATE_FN_NAME Gen.fresh =
      .ok ⟨Gen.fresh.out ++
            linesToString (treeLines EVALUATE_FN_NAME Gen.fresh.indent.toNat sampleStmt),
           Gen.fresh.indent⟩
     ∧ ∀ f : Nat → ℚ, evaluate_node sampleTree f 2 0 = .ok (sampleStmt.eval f)) :=
  ⟨rfl,
   code_gen_tree_golden_equiv 2 sampleTree EVALUATE_FN_NAME Gen.fresh sampleStmt
     rfl (by decide)⟩

/-- C8: code generation is deterministic: two runs of `code_gen_tree` on
the same tree and function name append byte-identical generated text,
whatever the (equal-indent) generator states are; in particular two runs
from fresh generators produce byte-identical output. -/
theorem code_gen_tree_deterministic (fuel : Nat) (t : Tree) (fn : String) (s : Stmt)
    (g₁ g₂ : Gen) (h : lowerTree t fuel 0 = .ok s)
    (hi : g₁.indent = g₂.indent) (hg : 0 ≤ g₁.indent) :
    ∃ generated : String,
      code_gen_tree fuel t fn g₁ = .ok ⟨g₁.out ++ generated, g₁.indent⟩ ∧
      code_gen_tree fuel t fn g₂ = .ok ⟨g₂.out ++ generated, g₂.indent⟩ := by
  refine ⟨linesToString (treeLines fn g₁.indent.toNat s),
    code_gen_tree_eq fuel t fn g₁ s h hg, ?_⟩
  have h2 := code_gen_tree_eq fuel t fn g₂ s h (hi ▸ hg)
  rw [h2, ← hi]

/-- Witness for C8: two generator instances, one fresh and one with prior
content, receive the same appended bytes. -/
theorem code_gen_tree_deterministic_witness :
    lowerTree sampleTree 2 0 = .ok sampleStmt ∧
    Gen.fresh.indent = (⟨"// x\n", 0⟩ : Gen).indent ∧
    (∃ generated : String,
      code_gen_tree 2 sampleTree EVALUATE_FN_NAME Gen.fresh =
        .ok ⟨Gen.fresh.out ++ generated, Gen.fresh.indent⟩ ∧
      code_gen_tree 2 sampleTree EVALUATE_FN_NAME (⟨"// x\n", 0⟩ : Gen) =
        .ok ⟨(⟨"// x\n", 0⟩ : Gen).out ++ generated, (⟨"// x\n", 0⟩ : Gen).indent⟩) :=
  ⟨rfl, rfl,
   code_gen_tree_deterministic 2 sampleTree EVALUATE_FN_NAME sampleStmt
     Gen.fresh ⟨"// x\n", 0⟩ rfl rfl (by decide)⟩

/-- C10: at each leaf node `recur` checks `value[node].size == 1` before
emitting the return statement; a leaf carrying a multi-element value makes
the run fail with the assertion error instead of producing a generator
state, and `code_gen_tree` on such a root propagates that failure. -/
theorem leaf_value_size_assert (t : Tree) (fuel node : Nat) (g : Gen) (fn : String)
    (v : List ℚ) (hleaf : t.children_left[node]? = some (-1))
    (hv : t.value[node]? = some v) (hlen : v.length ≠ 1) (hg : 0 ≤ g.indent) :
    recur t (fuel + 1) node g = .error .valueSize
    ∧ (node = 0 → code_gen_tree (fuel + 1) t fn g = .error .valueSize) := by
  have hrec : ∀ g' : Gen, recur t (fuel + 1) node g' = .error .valueSize := by
    intro g'
    unfold recur
    simp only [hleaf]
    rw [if_pos (by trivial)]
    simp only [hv]
    cases v with
    | nil => rfl
    | cons x vt =>
      cases vt with
      | nil => exact absurd rfl hlen
      | cons y rest => rfl
  refine ⟨hrec g, fun h0 => ?_⟩
  subst h0
  unfold code_gen_tree
  apply bracketed_error _ _ _ _ _ hg
  apply bracketed_error
  · change (0:Int) ≤ g.indent + 1
    omega
  · exact hrec _

/-- Witness for C10 at a root leaf holding the two-element value [1, 2]. -/
theorem leaf_value_size_assert_witness :
    badLeafTree.children_left[0]? = some (-1) ∧
    badLeafTree.value[0]? = some [1, 2] ∧ ([1, 2] : List ℚ).length ≠ 1 ∧
    (recur badLeafTree 1 0 Gen.fresh = .error .valueSize
     ∧ (0 = 0 → code_gen_tree 1 badLeafTree EVALUATE_FN_NAME Gen.fresh = .error .valueSize)) :=
  ⟨rfl, rfl, by decide,
   leaf_value_size_assert badLeafTree 0 0 Gen.fresh EVALUATE_FN_NAME [1, 2]
     rfl rfl (by decide) (by decide)⟩

/-- C7: `write line` appends exactly one line — the two-spaces-per-depth
prefix, the line, and a terminating newline (so the newline count grows
by exactly one when the line itself has no newline), leaving the depth
unchanged; `bracketed` writes the opening line, runs the body at depth
one higher, and writes the closing line at the original depth with the
depth restored, the involved depths all non-negative. -/
theorem emitter_write_scoped_block (g : Gen) (line pre post : String)
    (body : Gen → Except GenErr Gen) (g3 : Gen)
    (hline : '\n' ∉ line.data) (hg : 0 ≤ g.indent)
    (hbody : body ⟨(g.write pre).out, g.indent + 1⟩ = .ok g3)
    (hbal : g3.indent = g.indent + 1) :
    ((g.write line).out = g.out ++ (indentStr g.indent.toNat ++ (line ++ "\n"))
      ∧ (g.write line).indent = g.indent
      ∧ newlineCount (g.write line).out = newlineCount g.out + 1
      ∧ (indentStr g.indent.toNat).length = 2 * g.indent.toNat)
    ∧ (g.bracketed pre post body =
        .ok ⟨g3.out ++ (indentStr g.indent.toNat ++ (post ++ "\n")), g.indent⟩
      ∧ 0 ≤ g.indent + 1 ∧ 0 ≤ g3.indent - 1) := by
  refine ⟨⟨rfl, rfl, ?_, length_indentStr _⟩, ?_, by omega, by omega⟩
  · show newlineCount (g.out ++ (indentStr g.indent.toNat ++ (line ++ "\n"))) =
      newlineCount g.out + 1
    rw [newlineCount_append, newlineCount_append, newlineCount_append,
      newlineCount_indentStr]
    have h1 : newlineCount line = 0 := List.count_eq_zero.mpr hline
    have h2 : newlineCount "\n" = 1 := by decide
    omega
  · unfold Gen.bracketed
    rw [if_neg (by omega), hbody]
    have h3 : g3.indent - 1 = g.indent := by omega
    simp [Gen.write, h3]

/-- Witness for C7: a concrete write and a concrete balanced block. -/
theorem emitter_write_scoped_block_witness :
    '\n' ∉ "return 0;".data ∧ (0 : Int) ≤ Gen.fresh.indent ∧
    (((Gen.fresh.write "return 0;").out =
        Gen.fresh.out ++ (indentStr Gen.fresh.indent.toNat ++ ("return 0;" ++ "\n"))
      ∧ (Gen.fresh.write "return 0;").indent = Gen.fresh.indent
      ∧ newlineCount (Gen.fresh.write "return 0;").out = newlineCount Gen.fresh.out + 1
      ∧ (indentStr Gen.fresh.indent.toNat).length = 2 * Gen.fresh.indent.toNat)
    ∧ (Gen.fresh.bracketed "a" "b" (fun gg => Except.ok gg) =
        .ok ⟨(⟨(Gen.fresh.write "a").out, Gen.fresh.indent + 1⟩ : Gen).out ++
              (indentStr Gen.fresh.indent.toNat ++ ("b" ++ "\n")), Gen.fresh.indent⟩
      ∧ 0 ≤ Gen.fresh.indent + 1
      ∧ 0 ≤ (⟨(Gen.fresh.write "a").out, Gen.fresh.indent + 1⟩ : Gen).indent - 1)) :=
  ⟨by decide, by decide,
   emitter_write_scoped_block Gen.fresh "return 0;" "a" "b" (fun gg => Except.ok gg)
     ⟨(Gen.fresh.write "a").out, Gen.fresh.indent + 1⟩ (by decide) (by decide) rfl rfl⟩

/- ## The ensemble generator -/

/-- `_gen_tree i tree`: generate the i-th tree's unit into a fresh
generator under the name `evaluate_<i>`
(`"{name}_{index}".format(name=EVALUATE_FN_NAME, index=i)`). -/
def _gen_tree (fuel : Nat) (i : Nat) (t : Tree) : Except GenErr Gen :=
  code_gen_tree fuel t (EVALUATE_FN_NAME ++ "_" ++ toString i) Gen.fresh

/-- The list comprehension `[_gen_tree(i, tree) for i, tree in
enumerate(trees)]`, propagating the first failure. -/
def genTrees (fuel : Nat) : List (Nat × Tree) → Except GenErr (List Gen)
  | [] => .ok []
  | (i, t) :: rest =>
    match _gen_tree fuel i t with
    | .error e => .error e
    | .ok g =>
      match genTrees fuel rest with
      | .error e => .error e
      | .ok gs => .ok (g :: gs)

/-- `code_gen_ensemble`: generate one unit per tree, then the combiner
unit (`#include <omp.h>` only when OpenMP is supported, the `extern "C"`
block with one forward declaration per tree, the `funcs` function-pointer
array, the `evaluate(float* f, int n_jobs)` definition whose body
initializes `result`, always writes the `#pragma omp parallel for` line,
loops over the trees accumulating `funcs[i](f) * weight`, and returns the
accumulator), returning the tree units plus the combiner.  The sequential
Python statements are chained with `Except.bind`. -/
def code_gen_ensemble (fuel : Nat) (openmp : Bool) (trees : List Tree)
    (individual_learner_weight initial_value : ℚ) (g : Gen) : Except GenErr (List Gen) :=
  Except.bind (genTrees fuel trees.enum) (fun tree_files =>
    Except.bind
      (Gen.bracketed (if openmp then Gen.write g "#include <omp.h>" else g)
        "extern \"C\" \x7b" "\x7d"
        (fun g2 =>
          Gen.bracketed
            (Gen.write
              (List.foldl Gen.write g2 (trees.enum.map (fun it =>
                "double " ++ (EVALUATE_FN_NAME ++ "_" ++ toString it.1) ++ "(float* f);")))
              ("double (* funcs [" ++ toString trees.length ++ "])(float* f) = \x7b" ++
                String.intercalate ", " ((List.range trees.length).map
                  (fun i => "&" ++ (EVALUATE_FN_NAME ++ "_" ++ toString i))) ++ "\x7d;"))
            ("double " ++ EVALUATE_FN_NAME ++ "(float* f, int n_jobs) \x7b") "\x7d"
            (fun g5 =>
              Except.bind
                (Gen.bracketed
                  (Gen.write
                    (Gen.write
                      (Gen.write g5 ("double result = " ++ fmtR initial_value ++ ";"))
                      "int i;")
                    "#pragma omp parallel for num_threads(n_jobs) schedule(static) private(i) reduction(+:result)")
                  ("for(int i=0; i<" ++ toString trees.length ++ "; ++i)\n\x7b") "\x7d"
                  (fun g9 => Except.ok (Gen.write g9 ("result += funcs[i](f) * " ++
                    fmtR individual_learner_weight ++ ";"))))
                (fun g10 => Except.ok (Gen.write g10 "return result;")))))
      (fun gcomb => Except.ok (tree_files ++ [gcomb])))

/-- Lower every tree of an ensemble at its root. -/
def lowerAll (fuel : Nat) : List Tree → Except GenErr (List Stmt)
  | [] => .ok []
  | t :: ts =>
    match lowerTree t fuel 0 with
    | .error e => .error e
    | .ok s =>
      match lowerAll fuel ts with
      | .error e => .error e
      | .ok ss => .ok (s :: ss)

/-- Evaluate every tree of an ensemble on a feature vector with the
golden-model interpreter. -/
def evalAll (fuel : Nat) (f : Nat → ℚ) : List Tree → Except GenErr (List ℚ)
  | [] => .ok []
  | t :: ts =>
    match evaluate_node t f fuel 0 with
    | .error e => .error e
    | .ok y =>
      match evalAll fuel f ts with
      | .error e => .error e
      | .ok ys => .ok (y :: ys)

/-- Modelled from the spec: the run-time semantics of the generated
combiner (the compiled C is outside the repository): start the
accumulator at `initial_value` and add `funcs[i](f) * weight` for
`i in [0, N)` in order. -/
def ensembleEval (fuel : Nat) (trees : List Tree) (w v : ℚ) (f : Nat → ℚ) :
    Except GenErr ℚ :=
  (evalAll fuel f trees).bind
    (fun ys => .ok (ys.foldl (fun acc y => acc + y * w) v))

/-- The (depth, line) pairs of the combiner unit emitted by
`code_gen_ensemble` for `n` trees, weight `w` and initial value `v`. -/
def combinerLines (openmp : Bool) (n : Nat) (w v : ℚ) : List (Nat × String) :=
  (if openmp then [(0, "#include <omp.h>")] else []) ++
  ((0, "extern \"C\" \x7b") ::
    (((List.range n).map (fun i =>
        (1, "double " ++ (EVALUATE_FN_NAME ++ "_" ++ toString i) ++ "(float* f);"))) ++
      ((1, "double (* funcs [" ++ toString n ++ "])(float* f) = \x7b" ++
          String.intercalate ", " ((List.range n).map
            (fun i => "&" ++ (EVALUATE_FN_NAME ++ "_" ++ toString i))) ++ "\x7d;") ::
       (1, "double " ++ EVALUATE_FN_NAME ++ "(float* f, int n_jobs) \x7b") ::
       (2, "double result = " ++ fmtR v ++ ";") ::
       (2, "int i;") ::
       (2, "#pragma omp parallel for num_threads(n_jobs) schedule(static) private(i) reduction(+:result)") ::
       (2, "for(int i=0; i<" ++ toString n ++ "; ++i)\n\x7b") ::
       (3, "result += funcs[i](f) * " ++ fmtR w ++ ";") ::
       (2, "\x7d") ::
       (2, "return result;") ::
       (1, "\x7d") ::
       [(0, "\x7d")])))

/- ## Ensemble helper lemmas -/

theorem foldl_write_eq : ∀ (L : List String) (g : Gen),
    List.foldl Gen.write g L =
      ⟨g.out ++ linesToString (L.map (fun l => (g.indent.toNat, l))), g.indent⟩ := by
  intro L
  induction L with
  | nil => intro g; simp [linesToString]
  | cons l L ih =>
    intro g
    show List.foldl Gen.write (g.write l) L = _
    rw [ih (g.write l)]
    simp [Gen.write, linesToString]

theorem bind_bracketed_ok {α : Type} (g : Gen) (pre post : String)
    (body : Gen → Except GenErr Gen) (L : List (Nat × String))
    (k : Gen → Except GenErr α) (R : Except GenErr α) (hg : 0 ≤ g.indent)
    (hbody : body ⟨(g.write pre).out, g.indent + 1⟩ =
      .ok ⟨(g.write pre).out ++ linesToString L, g.indent + 1⟩)
    (hk : k ⟨g.out ++ linesToString ((g.indent.toNat, pre) :: (L ++ [(g.indent.toNat, post)])),
            g.indent⟩ = R) :
    Except.bind (g.bracketed pre post body) k = R := by
  rw [bracketed_ok g pre post body L hg hbody]
  exact hk

theorem enumFrom_map_fst_based {β : Type} (X : Nat → β) :
    ∀ (l : List Tree) (k : Nat),
    (l.enumFrom k).map (fun it => X it.1) = (List.range' k l.length).map X := by
  intro l
  induction l with
  | nil => intro k; rfl
  | cons t ts ih =>
    intro k
    simp only [List.enumFrom, List.length_cons, List.range', List.map_cons]
    rw [ih (k + 1)]

theorem enum_map_str {β : Type} (l : List Tree) (X : Nat → β) :
    l.enum.map (fun it => X it.1) = (List.range l.length).map X := by
  rw [List.range_eq_range']
  exact enumFrom_map_fst_based X l 0

theorem genTrees_eq (fuel : Nat) : ∀ (trees : List Tree) (stmts : List Stmt) (k : Nat),
    lowerAll fuel trees = .ok stmts →
    genTrees fuel (trees.enumFrom k) =
      .ok ((stmts.enumFrom k).map (fun is =>
        (⟨linesToString (treeLines (EVALUATE_FN_NAME ++ "_" ++ toString is.1) 0 is.2), 0⟩ : Gen))) := by
  intro trees
  induction trees with
  | nil =>
    intro stmts k h
    unfold lowerAll at h
    simp only [Except.ok.injEq] at h
    subst h
    rfl
  | cons t ts ih =>
    intro stmts k h
    unfold lowerAll at h
    cases hs : lowerTree t fuel 0 with
    | error e => simp [hs] at h
    | ok s =>
      simp only [hs] at h
      cases hrest : lowerAll fuel ts with
      | error e => simp [hrest] at h
      | ok ss =>
        simp only [hrest, Except.ok.injEq] at h
        subst h
        have h1 := code_gen_tree_eq fuel t (EVALUATE_FN_NAME ++ "_" ++ toString k)
          Gen.fresh s hs (by decide)
        have h2 := ih ss (k + 1) hrest
        show genTrees fuel ((k, t) :: ts.enumFrom (k + 1)) = _
        unfold genTrees
        unfold _gen_tree
        simp only [h1, h2, List.enumFrom, List.map_cons]
        simp [Gen.fresh]

/-- The (depth, line) pairs of the combiner function's body. -/
def combinerFnLines (n : Nat) (w v : ℚ) : List (Nat × String) :=
  ((2, "double result = " ++ fmtR v ++ ";") ::
   (2, "int i;") ::
   (2, "#pragma omp parallel for num_threads(n_jobs) schedule(static) private(i) reduction(+:result)") ::
   (2, "for(int i=0; i<" ++ toString n ++ "; ++i)\n\x7b") ::
   (3, "result += funcs[i](f) * " ++ fmtR w ++ ";") ::
   [(2, "\x7d")]) ++
  [(2, "return result;")]

/-- The (depth, line) pairs between `extern "C" \x7b` and its closing
brace in the combiner unit. -/
def combinerInnerLines (n : Nat) (w v : ℚ) : List (Nat × String) :=
  ((List.range n).map (fun i =>
      (1, "double " ++ (EVALUATE_FN_NAME ++ "_" ++ toString i) ++ "(float* f);"))) ++
    ((1, "double (* funcs [" ++ toString n ++ "])(float* f) = \x7b" ++
        String.intercalate ", " ((List.range n).map
          (fun i => "&" ++ (EVALUATE_FN_NAME ++ "_" ++ toString i))) ++ "\x7d;") ::
     (1, "double " ++ EVALUATE_FN_NAME ++ "(float* f, int n_jobs) \x7b") ::
     (combinerFnLines n w v ++ [(1, "\x7d")]))

theorem combinerLines_decompose (openmp : Bool) (n : Nat) (w v : ℚ) :
    combinerLines openmp n w v =
      (if openmp then [((0:Nat), "#include <omp.h>")] else []) ++
        ((0, "extern \"C\" \x7b") :: (combinerInnerLines n w v ++ [(0, "\x7d")])) := by
  cases openmp <;> simp [combinerLines, combinerInnerLines, combinerFnLines]

theorem ensemble_close (TF : List Gen) (B : Gen → Except GenErr Gen) (o0 : String)
    (openmp : Bool) (L : List (Nat × String))
    (hB : ∀ oi : String, B ⟨oi, 1⟩ = .ok ⟨oi ++ linesToString L, 1⟩) :
    Except.bind
      (Gen.bracketed (if openmp then Gen.write ⟨o0, 0⟩ "#include <omp.h>" else ⟨o0, 0⟩)
        "extern \"C\" \x7b" "\x7d" B)
      (fun gcomb => Except.ok (TF ++ [gcomb])) =
    .ok (TF ++ [⟨o0 ++ linesToString
      ((if openmp then [((0:Nat), "#include <omp.h>")] else []) ++
        ((0, "extern \"C\" \x7b") :: (L ++ [(0, "\x7d")]))), 0⟩]) := by
  cases openmp
  case false =>
    simp only [Bool.false_eq_true, if_false]
    apply bind_bracketed_ok _ _ _ _ L
    · exact le_refl 0
    · exact hB _
    · simp
  case true =>
    simp only [if_true]
    apply bind_bracketed_ok _ _ _ _ L
    · exact le_refl 0
    · exact hB _
    · simp [-String.reduceAppend, Gen.write, linesToString]

theorem except_bind_ok {α β : Type} (a : α) (k : α → Except GenErr β) :
    Except.bind (Except.ok a) k = k a := rfl

theorem code_gen_ensemble_eq (fuel : Nat) (openmp : Bool) (trees : List Tree) (w v : ℚ)
    (stmts : List Stmt) (h : lowerAll fuel trees = .ok stmts) (o0 : String) :
    code_gen_ensemble fuel openmp trees w v ⟨o0, 0⟩ =
      .ok ((stmts.enum.map (fun is =>
          (⟨linesToString (treeLines (EVALUATE_FN_NAME ++ "_" ++ toString is.1) 0 is.2), 0⟩ : Gen)))
        ++ [⟨o0 ++ linesToString (combinerLines openmp trees.length w v), 0⟩]) := by
  have hG : genTrees fuel trees.enum = .ok (stmts.enum.map (fun is =>
      (⟨linesToString (treeLines (EVALUATE_FN_NAME ++ "_" ++ toString is.1) 0 is.2), 0⟩ : Gen))) := by
    simpa [List.enum] using genTrees_eq fuel trees stmts 0 h
  have hD : (trees.enum.map (fun it =>
        "double " ++ (EVALUATE_FN_NAME ++ "_" ++ toString it.1) ++ "(float* f);")).map
        (fun l => ((1:Nat), l)) =
      (List.range trees.length).map (fun i =>
        ((1:Nat), "double " ++ (EVALUATE_FN_NAME ++ "_" ++ toString i) ++ "(float* f);")) := by
    rw [List.map_map]
    exact enum_map_str trees
      (fun i => ((1:Nat), "double " ++ (EVALUATE_FN_NAME ++ "_" ++ toString i) ++ "(float* f);"))
  unfold code_gen_ensemble
  rw [combinerLines_decompose]
  rw [hG, except_bind_ok]
  apply ensemble_close
  intro oi
  rw [foldl_write_eq]
  simp only [Int.toNat_one]
  rw [hD]
  apply bracketed_ok_gen _ _ _ _ (combinerFnLines trees.length w v)
  · change (0:Int) ≤ 1
    decide
  · apply bind_bracketed_ok _ _ _ _
      [((3:Nat), "result += funcs[i](f) * " ++ fmtR w ++ ";")]
    · change (0:Int) ≤ 2
      decide
    · simp [-String.reduceAppend, Gen.write, linesToString]
    · simp [-String.reduceAppend, Gen.write, linesToString, combinerFnLines]
  · simp [-String.reduceAppend, Gen.write, linesToString, combinerInnerLines,
      combinerFnLines]

/- ## Semantics of the ensemble -/

theorem evalAll_eq (fuel : Nat) (f : Nat → ℚ) : ∀ (trees : List Tree) (stmts : List Stmt),
    lowerAll fuel trees = .ok stmts →
    evalAll fuel f trees = .ok (stmts.map (fun s => s.eval f)) := by
  intro trees
  induction trees with
  | nil =>
    intro stmts h
    unfold lowerAll at h
    simp only [Except.ok.injEq] at h
    subst h
    rfl
  | cons t ts ih =>
    intro stmts h
    unfold lowerAll at h
    cases hs : lowerTree t fuel 0 with
    | error e => simp [hs] at h
    | ok s =>
      simp only [hs] at h
      cases hrest : lowerAll fuel ts with
      | error e => simp [hrest] at h
      | ok ss =>
        simp only [hrest, Except.ok.injEq] at h
        subst h
        have h1 := lowerTree_eval t f fuel 0 s hs
        have h2 := ih ss hrest
        unfold evalAll
        simp only [h1, h2, List.map_cons]

theorem foldl_weighted_sum (w : ℚ) : ∀ (ys : List ℚ) (v : ℚ),
    ys.foldl (fun acc y => acc + y * w) v = v + (ys.map (fun y => y * w)).sum := by
  intro ys
  induction ys with
  | nil => intro v; simp
  | cons y ys ih =>
    intro v
    show ys.foldl _ (v + y * w) = _
    rw [ih (v + y * w)]
    simp [List.sum_cons]
    ring

theorem ensembleEval_eq (fuel : Nat) (trees : List Tree) (w v : ℚ) (stmts : List Stmt)
    (h : lowerAll fuel trees = .ok stmts) (f : Nat → ℚ) :
    ensembleEval fuel trees w v f =
      .ok (v + (stmts.map (fun s => s.eval f * w)).sum) := by
  unfold ensembleEval
  rw [evalAll_eq fuel f trees stmts h, except_bind_ok, foldl_weighted_sum,
    List.map_map]
  rfl

/- ## Scenario trees for the ensemble witnesses -/

/-- Single-split tree returning 1 left of `f[0] <= 0` and 0 right. -/
def scenTreeA : Tree := ⟨[1, -1, -1], [2, -1, -1], [0, 0, 0], [0, 0, 0], [[0], [1], [0]]⟩

/-- Single-split tree returning 0 left of `f[0] <= 0` and 1 right. -/
def scenTreeB : Tree := ⟨[1, -1, -1], [2, -1, -1], [0, 0, 0], [0, 0, 0], [[0], [0], [1]]⟩

/-- Statement `scenTreeA` lowers to. -/
def scenStmtA : Stmt := .cond 0 0 (.ret 1) (.ret 0)

/-- Statement `scenTreeB` lowers to. -/
def scenStmtB : Stmt := .cond 0 0 (.ret 0) (.ret 1)

/-- C2: the combiner unit is byte-for-byte the text of `combinerLines`
(the forward declarations, the `funcs` array of the N tree evaluators in
tree order, the `double evaluate(float* f, int n_jobs)` definition whose
body starts the accumulator at the initial value, adds
`funcs[i](f) * weight` for `i in [0, N)` and returns the accumulator),
and the combiner's reference semantics equals the initial value plus the
ordered sum of the weighted tree evaluations. -/
theorem code_gen_ensemble_combiner (fuel : Nat) (openmp : Bool) (trees : List Tree)
    (w v : ℚ) (stmts : List Stmt) (h : lowerAll fuel trees = .ok stmts) :
    code_gen_ensemble fuel openmp trees w v Gen.fresh =
      .ok ((stmts.enum.map (fun is =>
          (⟨linesToString (treeLines (EVALUATE_FN_NAME ++ "_" ++ toString is.1) 0 is.2), 0⟩ : Gen)))
        ++ [⟨linesToString (combinerLines openmp trees.length w v), 0⟩])
    ∧ ∀ f : Nat → ℚ, ensembleEval fuel trees w v f =
        .ok (v + (stmts.map (fun s => s.eval f * w)).sum) := by
  constructor
  · simpa [Gen.fresh] using code_gen_ensemble_eq fuel openmp trees w v stmts h ""
  · intro f
    exact ensembleEval_eq fuel trees w v stmts h f

/-- Witness for C2 at the spec's scenario: two single-split trees with
weight 1/2 and initial value 0; on an input where tree 0 returns 1 and
tree 1 returns 0 the combined result is 1/2. -/
theorem code_gen_ensemble_combiner_witness :
    lowerAll 2 [scenTreeA, scenTreeB] = .ok [scenStmtA, scenStmtB] ∧
    (code_gen_ensemble 2 true [scenTreeA, scenTreeB] (1/2) 0 Gen.fresh =
      .ok (([scenStmtA, scenStmtB].enum.map (fun is =>
          (⟨linesToString (treeLines (EVALUATE_FN_NAME ++ "_" ++ toString is.1) 0 is.2), 0⟩ : Gen)))
        ++ [⟨linesToString (combinerLines true 2 (1/2) 0), 0⟩])
     ∧ ∀ f : Nat → ℚ, ensembleEval 2 [scenTreeA, scenTreeB] (1/2) 0 f =
        .ok (0 + ([scenStmtA, scenStmtB].map (fun s => s.eval f * (1/2))).sum)) ∧
    ensembleEval 2 [scenTreeA, scenTreeB] (1/2) 0 (fun _ => 0) = .ok (1/2) := by
  have H := code_gen_ensemble_combiner 2 true [scenTreeA, scenTreeB] (1/2) 0
    [scenStmtA, scenStmtB] rfl
  refine ⟨rfl, H, ?_⟩
  rw [H.2 (fun _ => 0)]
  norm_num [scenStmtA, scenStmtB, Stmt.eval]

/- ## Decidable equality of run results, for concrete evaluations -/

instance {ε α : Type} [DecidableEq ε] [DecidableEq α] : DecidableEq (Except ε α) := fun x y =>
  match x, y with
  | .ok a, .ok b =>
    if h : a = b then .isTrue (by rw [h])
    else .isFalse (fun hc => h (Except.ok.inj hc))
  | .error e, .error e' =>
    if h : e = e' then .isTrue (by rw [h])
    else .isFalse (fun hc => h (Except.error.inj hc))
  | .ok _, .error _ => .isFalse (fun hc => Except.noConfusion hc)
  | .error _, .ok _ => .isFalse (fun hc => Except.noConfusion hc)

set_option maxRecDepth 200000 in
/-- C3 counterexample: the per-tree evaluators are named `evaluate_<i>`,
not `evaluate_partial_<i>` as the claim (and the stale docstring) say:
for a one-tree ensemble the generated combiner forward-declares
`evaluate_0` and no `evaluate_partial_0` declaration appears anywhere. -/
theorem evaluate_partial_name_counterexample :
    _gen_tree 2 0 scenTreeA =
      code_gen_tree 2 scenTreeA (EVALUATE_FN_NAME ++ "_" ++ toString (0:Nat)) Gen.fresh ∧
    (EVALUATE_FN_NAME ++ "_" ++ toString (0:Nat)) = "evaluate_0" ∧
    "evaluate_0" ≠ "evaluate_partial_0" ∧
    ((1:Nat), "double evaluate_0(float* f);") ∈ combinerLines true 1 1 0 ∧
    ((combinerLines true 1 1 0).map Prod.snd).contains "double evaluate_partial_0(float* f);"
      = false ∧
    code_gen_ensemble 2 true [scenTreeA] 1 0 Gen.fresh =
      .ok [⟨linesToString (treeLines "evaluate_0" 0 scenStmtA), 0⟩,
           ⟨linesToString (combinerLines true 1 1 0), 0⟩] :=
  ⟨rfl, by decide, by decide, by decide, by decide, by decide⟩

/-- C3 as amended: tree `i` is generated under the function name
`evaluate_<i>` (`EVALUATE_FN_NAME ++ "_" ++ i`), and the combiner unit
forward-declares all N partial-evaluator symbols under exactly those
names. -/
theorem ensemble_tree_function_names (fuel : Nat) (openmp : Bool) (trees : List Tree)
    (w v : ℚ) (stmts : List Stmt) (h : lowerAll fuel trees = .ok stmts) :
    (∀ i : Nat, ∀ t : Tree, _gen_tree fuel i t =
        code_gen_tree fuel t (EVALUATE_FN_NAME ++ "_" ++ toString i) Gen.fresh)
    ∧ code_gen_ensemble fuel openmp trees w v Gen.fresh =
        .ok ((stmts.enum.map (fun is =>
            (⟨linesToString (treeLines (EVALUATE_FN_NAME ++ "_" ++ toString is.1) 0 is.2), 0⟩ : Gen)))
          ++ [⟨linesToString (combinerLines openmp trees.length w v), 0⟩])
    ∧ ∀ i : Nat, i < trees.length →
        ((1:Nat), "double " ++ (EVALUATE_FN_NAME ++ "_" ++ toString i) ++ "(float* f);")
          ∈ combinerLines openmp trees.length w v := by
  refine ⟨fun i t => rfl,
    by simpa [Gen.fresh] using code_gen_ensemble_eq fuel openmp trees w v stmts h "", ?_⟩
  intro i hi
  unfold combinerLines
  apply List.mem_append_right
  apply List.mem_cons_of_mem
  apply List.mem_append_left
  exact List.mem_map_of_mem _ (List.mem_range.mpr hi)

/-- Witness for the amended C3 at a one-tree ensemble. -/
theorem ensemble_tree_function_names_witness :
    lowerAll 2 [scenTreeA] = .ok [scenStmtA] ∧
    ((∀ i : Nat, ∀ t : Tree, _gen_tree 2 i t =
        code_gen_tree 2 t (EVALUATE_FN_NAME ++ "_" ++ toString i) Gen.fresh)
    ∧ code_gen_ensemble 2 true [scenTreeA] 1 0 Gen.fresh =
        .ok (([scenStmtA].enum.map (fun is =>
            (⟨linesToString (treeLines (EVALUATE_FN_NAME ++ "_" ++ toString is.1) 0 is.2), 0⟩ : Gen)))
          ++ [⟨linesToString (combinerLines true [scenTreeA].length 1 0), 0⟩])
    ∧ ∀ i : Nat, i < [scenTreeA].length →
        ((1:Nat), "double " ++ (EVALUATE_FN_NAME ++ "_" ++ toString i) ++ "(float* f);")
          ∈ combinerLines true [scenTreeA].length 1 0) :=
  ⟨rfl, ensemble_tree_function_names 2 true [scenTreeA] 1 0 [scenStmtA] rfl⟩

set_option maxRecDepth 200000 in
/-- C4 counterexample: with OpenMP support off, the combiner unit still
contains the `#pragma omp parallel for` line — only the
`#include <omp.h>` line is suppressed — so the pragma is not suppressed
as the claim states. -/
theorem openmp_pragma_always_emitted_counterexample :
    code_gen_ensemble 1 false [] 1 0 Gen.fresh =
      .ok [⟨linesToString (combinerLines false 0 1 0), 0⟩] ∧
    ((2:Nat), "#pragma omp parallel for num_threads(n_jobs) schedule(static) private(i) reduction(+:result)")
      ∈ combinerLines false 0 1 0 ∧
    ((0:Nat), "#include <omp.h>") ∉ combinerLines false 0 1 0 :=
  ⟨rfl, by decide, by decide⟩

/-- C4 as amended: when the toolchain lacks OpenMP support the generator
omits only the `#include <omp.h>` line of the combiner unit — the
OpenMP-enabled output is that single line prepended to the
OpenMP-disabled output — while the `#pragma omp parallel for` line is
emitted unconditionally (without `-fopenmp` a compiler ignores it,
giving a plain sequential loop over the same body). -/
theorem openmp_unsupported_omits_include_only (fuel : Nat) (trees : List Tree) (w v : ℚ)
    (stmts : List Stmt) (h : lowerAll fuel trees = .ok stmts) :
    code_gen_ensemble fuel false trees w v Gen.fresh =
      .ok ((stmts.enum.map (fun is =>
          (⟨linesToString (treeLines (EVALUATE_FN_NAME ++ "_" ++ toString is.1) 0 is.2), 0⟩ : Gen)))
        ++ [⟨linesToString (combinerLines false trees.length w v), 0⟩])
    ∧ combinerLines true trees.length w v =
        ((0:Nat), "#include <omp.h>") :: combinerLines false trees.length w v
    ∧ ((2:Nat), "#pragma omp parallel for num_threads(n_jobs) schedule(static) private(i) reduction(+:result)")
        ∈ combinerLines false trees.length w v
    ∧ ((0:Nat), "#include <omp.h>") ∉ combinerLines false trees.length w v := by
  refine ⟨by simpa [Gen.fresh] using code_gen_ensemble_eq fuel false trees w v stmts h "",
    by simp [combinerLines], ?_, ?_⟩
  · unfold combinerLines
    apply List.mem_append_right
    apply List.mem_cons_of_mem
    apply List.mem_append_right
    simp
  · unfold combinerLines
    simp

/-- Witness for the amended C4 at the empty ensemble. -/
theorem openmp_unsupported_omits_include_only_witness :
    lowerAll 1 ([] : List Tree) = .ok [] ∧
    (code_gen_ensemble 1 false [] 1 0 Gen.fresh =
      .ok ((([] : List Stmt).enum.map (fun is =>
          (⟨linesToString (treeLines (EVALUATE_FN_NAME ++ "_" ++ toString is.1) 0 is.2), 0⟩ : Gen)))
        ++ [⟨linesToString (combinerLines false ([] : List Tree).length 1 0), 0⟩])
    ∧ combinerLines true ([] : List Tree).length 1 0 =
        ((0:Nat), "#include <omp.h>") :: combinerLines false ([] : List Tree).length 1 0
    ∧ ((2:Nat), "#pragma omp parallel for num_threads(n_jobs) schedule(static) private(i) reduction(+:result)")
        ∈ combinerLines false ([] : List Tree).length 1 0
    ∧ ((0:Nat), "#include <omp.h>") ∉ combinerLines false ([] : List Tree).length 1 0) :=
  ⟨rfl, openmp_unsupported_omits_include_only 1 [] 1 0 [] rfl⟩

/- ## Build orchestrator (`_compile`, `compile_code_to_object`) -/

/-- Externally observable build actions: a source unit produced by the
generator, one compiler invocation per unit, the Windows file-of-filenames
written for the linker, and the link invocation. -/
inductive BuildEvent where
  | generated
  | compileCall (args : List String)
  | listFile (content : String)
  | linkCall (args : List String)
deriving DecidableEq, Repr

/-- The object file temporary for a source file; the random part of the
`tempfile` name is modelled deterministically from the source name. -/
def objName (cpp : String) : String := cpp ++ ".o"

/-- `_compile`: raise "CXX compiler was not found. You should set CXX
environmental variable" when no compiler is resolvable, before any
compiler invocation; otherwise invoke
`CXX cpp -c -fPIC [-fopenmp] -o obj -O3 -pipe` ("" stands for the empty
argument the source inserts when OpenMP is off). -/
def _compile (cxx : Option String) (openmp : Bool) (cpp_f : String) :
    Except GenErr (String × List BuildEvent) :=
  match cxx with
  | none => .error .noCompiler
  | some c => .ok (objName cpp_f,
      [.compileCall [c, cpp_f, "-c", "-fPIC", (if openmp then "-fopenmp" else ""), "-o",
        objName cpp_f, "-O3", "-pipe"]])

/-- The `Parallel(...)(delayed(_compile)(f.name) for f in files)` map:
order-preserving, aborting at the first failure. -/
def compileAll (cxx : Option String) (openmp : Bool) : List String →
    Except GenErr (List String × List BuildEvent)
  | [] => .ok ([], [])
  | f :: fs =>
    match _compile cxx openmp f with
    | .error e => .error e
    | .ok (o, ev) =>
      match compileAll cxx openmp fs with
      | .error e => .error e
      | .ok (os, evs) => .ok (o :: os, ev ++ evs)

/-- Python's `name.replace('\\', '\\\\')` for the single-character
pattern: double every backslash. -/
def escapeBackslashes (s : String) : String :=
  ⟨(s.data.map (fun c => if c = '\\' then ['\\', '\\'] else [c])).flatten⟩

/-- The bytes written into the Windows file-of-filenames: for each
object file, its backslash-escaped path followed by a carriage return
(`f.name.replace('\\', '\\\\') + "\r"`). -/
def list_ofiles_content (names : List String) : String :=
  String.join (names.map (fun nm => escapeBackslashes nm ++ "\r"))

/-- `compile_code_to_object`: compile every unit, then link once.  On
Windows the object list is passed through the file-of-filenames as
`@listfile`; elsewhere the object paths go on the command line.  (The
`none` compiler case below is unreachable for nonempty inputs, since
`compileAll` fails first.) -/
def compile_code_to_object (cxx : Option String) (openmp windows : Bool)
    (files : List String) (so_name listf_name : String) :
    Except GenErr (String × List BuildEvent) :=
  match compileAll cxx openmp files with
  | .error e => .error e
  | .ok (o_names, evs) =>
    match cxx with
    | none => .error .noCompiler
    | some c =>
      if windows then
        .ok (so_name, evs ++
          [.listFile (list_ofiles_content o_names),
           .linkCall [c, "-shared", "@" ++ listf_name,
             (if openmp then "-fopenmp" else ""), "-fPIC", "-flto", "-o", so_name,
             "-O3", "-pipe"]])
      else
        .ok (so_name, evs ++
          [.linkCall ([c, "-shared"] ++ o_names ++
            ["-fPIC", "-flto", (if openmp then "-fopenmp" else ""), "-o", so_name,
             "-O3", "-pipe"])])

/-- The source-file temporaries of the generated units (random tempfile
names modelled deterministically by position). -/
def srcNames (gens : List Gen) : List String :=
  gens.enum.map (fun ig => "compiledtrees_" ++ toString ig.1 ++ ".cpp")

/-- Modelled from the spec: the pipeline composition (the caller that
feeds `code_gen_ensemble`'s units into `compile_code_to_object`) is not
under src/; per the spec's data flow, generation runs first and the
Build Orchestrator compiles then links.  The trace records one
`generated` event per source unit and the orchestrator's events. -/
def build_pipeline (cxx : Option String) (openmp windows : Bool) (fuel : Nat)
    (trees : List Tree) (w v : ℚ) (so_name listf_name : String) :
    List BuildEvent × Except GenErr String :=
  match code_gen_ensemble fuel openmp trees w v Gen.fresh with
  | .error e => ([], .error e)
  | .ok gens =>
    match compile_code_to_object cxx openmp windows (srcNames gens) so_name listf_name with
    | .error e => (gens.map (fun _ => BuildEvent.generated), .error e)
    | .ok (so, evs) => (gens.map (fun _ => BuildEvent.generated) ++ evs, .ok so)

theorem compileAll_none_ne (openmp : Bool) : ∀ fs : List String, fs ≠ [] →
    compileAll none openmp fs = .error .noCompiler := by
  intro fs hne
  cases fs with
  | nil => exact absurd rfl hne
  | cons f fs => rfl

theorem compile_code_to_object_none (openmp windows : Bool) (fs : List String)
    (hne : fs ≠ []) (so lf : String) :
    compile_code_to_object none openmp windows fs so lf = .error .noCompiler := by
  unfold compile_code_to_object
  simp only [compileAll_none_ne openmp fs hne]

theorem build_pipeline_none (openmp windows : Bool) (fuel : Nat) (trees : List Tree)
    (w v : ℚ) (so lf : String) (gens : List Gen)
    (hgen : code_gen_ensemble fuel openmp trees w v Gen.fresh = .ok gens)
    (hne : gens ≠ []) :
    build_pipeline none openmp windows fuel trees w v so lf =
      (gens.map (fun _ => BuildEvent.generated), .error .noCompiler) := by
  unfold build_pipeline
  simp only [hgen]
  have hne2 : srcNames gens ≠ [] := by
    cases gens with
    | nil => exact absurd rfl hne
    | cons g gs => simp [srcNames, List.enumFrom]
  simp only [compile_code_to_object_none openmp windows (srcNames gens) hne2 so lf]

set_option maxRecDepth 200000 in
/-- C5 counterexample: with no resolvable compiler the generation stage
still runs to completion — the pipeline trace records one `generated`
event per source unit before the configuration error surfaces in the
compile step — so the error is not raised before every pipeline stage
starts. -/
theorem no_compiler_after_generation_counterexample :
    build_pipeline none true false 2 [scenTreeA] 1 0 "m.so" "listf" =
      ([BuildEvent.generated, BuildEvent.generated], .error .noCompiler) ∧
    ([BuildEvent.generated, BuildEvent.generated] : List BuildEvent) ≠ [] :=
  ⟨rfl, by decide⟩

/-- C5 as amended: when no compiler is resolvable the pipeline fails
with the "CXX compiler was not found" configuration error at the start
of the compile step, before any compile or link invocation is attempted
(the trace holds only `generated` events), but after the generation
stage has completed. -/
theorem no_compiler_error_before_any_invocation (openmp windows : Bool) (fuel : Nat)
    (trees : List Tree) (w v : ℚ) (so lf : String) (stmts : List Stmt)
    (h : lowerAll fuel trees = .ok stmts) :
    build_pipeline none openmp windows fuel trees w v so lf =
      ((stmts.enum.map (fun _ => BuildEvent.generated)) ++ [BuildEvent.generated],
       .error .noCompiler)
    ∧ ∀ e ∈ (stmts.enum.map (fun _ => BuildEvent.generated)) ++ [BuildEvent.generated],
        e = BuildEvent.generated := by
  have hE : code_gen_ensemble fuel openmp trees w v Gen.fresh =
      .ok ((stmts.enum.map (fun is =>
          (⟨linesToString (treeLines (EVALUATE_FN_NAME ++ "_" ++ toString is.1) 0 is.2), 0⟩ : Gen)))
        ++ [⟨linesToString (combinerLines openmp trees.length w v), 0⟩]) := by
    simpa [Gen.fresh] using code_gen_ensemble_eq fuel openmp trees w v stmts h ""
  constructor
  · rw [build_pipeline_none openmp windows fuel trees w v so lf _ hE (by simp)]
    rw [List.map_append, List.map_map]
    rfl
  · intro e he
    rcases List.mem_append.mp he with h1 | h1
    · obtain ⟨_, _, h2⟩ := List.mem_map.mp h1
      exact h2.symm
    · simpa using h1

/-- Witness for the amended C5 at a one-tree ensemble. -/
theorem no_compiler_error_before_any_invocation_witness :
    lowerAll 2 [scenTreeA] = .ok [scenStmtA] ∧
    (build_pipeline none true false 2 [scenTreeA] 1 0 "m.so" "listf" =
      (([scenStmtA].enum.map (fun _ => BuildEvent.generated)) ++ [BuildEvent.generated],
       .error .noCompiler)
     ∧ ∀ e ∈ ([scenStmtA].enum.map (fun _ => BuildEvent.generated)) ++ [BuildEvent.generated],
        e = BuildEvent.generated) :=
  ⟨rfl, no_compiler_error_before_any_invocation true false 2 [scenTreeA] 1 0
    "m.so" "listf" [scenStmtA] rfl⟩

/-- Recognize a link invocation in the build trace. -/
def isLinkCall : BuildEvent → Bool
  | .linkCall _ => true
  | _ => false

theorem compileAll_some (c : String) (openmp : Bool) : ∀ files : List String,
    compileAll (some c) openmp files =
      .ok (files.map objName, files.map (fun f => BuildEvent.compileCall
        [c, f, "-c", "-fPIC", (if openmp then "-fopenmp" else ""), "-o", objName f,
         "-O3", "-pipe"])) := by
  intro files
  induction files with
  | nil => rfl
  | cons f fs ih =>
    unfold compileAll
    simp only [ih, _compile]
    simp

set_option maxRecDepth 200000 in
/-- C9 counterexample: the Windows file-of-filenames holds
backslash-escaped, UNQUOTED paths terminated by a carriage return — no
quote character and no newline appear — refuting "one quoted path per
line". -/
theorem windows_list_file_unquoted_counterexample :
    list_ofiles_content [objName "C:\\tmp\\unit0.cpp"] = "C:\\\\tmp\\\\unit0.cpp.o\r" ∧
    ("C:\\\\tmp\\\\unit0.cpp.o\r").data.contains '\"' = false ∧
    ("C:\\\\tmp\\\\unit0.cpp.o\r").data.contains '\n' = false :=
  ⟨by decide, by decide, by decide⟩

/-- C9 as amended: on Windows the link step passes the object list
through the intermediate file-of-filenames — each object path
backslash-escaped and terminated by a carriage return, unquoted — via a
single `@listfile` link invocation, i.e. exactly one link pass produces
the shared library. -/
theorem windows_link_via_list_file (c : String) (openmp : Bool) (files : List String)
    (so lf : String) :
    compile_code_to_object (some c) openmp true files so lf =
      .ok (so, (files.map (fun f => BuildEvent.compileCall
          [c, f, "-c", "-fPIC", (if openmp then "-fopenmp" else ""), "-o", objName f,
           "-O3", "-pipe"])) ++
        [.listFile (String.join ((files.map objName).map
            (fun nm => escapeBackslashes nm ++ "\r"))),
         .linkCall [c, "-shared", "@" ++ lf, (if openmp then "-fopenmp" else ""),
           "-fPIC", "-flto", "-o", so, "-O3", "-pipe"]])
    ∧ ((files.map (fun f => BuildEvent.compileCall
          [c, f, "-c", "-fPIC", (if openmp then "-fopenmp" else ""), "-o", objName f,
           "-O3", "-pipe"])) ++
        [BuildEvent.listFile (String.join ((files.map objName).map
            (fun nm => escapeBackslashes nm ++ "\r"))),
         BuildEvent.linkCall [c, "-shared", "@" ++ lf, (if openmp then "-fopenmp" else ""),
           "-fPIC", "-flto", "-o", so, "-O3", "-pipe"]]).countP isLinkCall = 1 := by
  constructor
  · unfold compile_code_to_object
    simp only [compileAll_some c openmp files]
    simp [list_ofiles_content]
  · rw [List.countP_append]
    have h0 : (files.map (fun f => BuildEvent.compileCall
        [c, f, "-c", "-fPIC", (if openmp then "-fopenmp" else ""), "-o", objName f,
         "-O3", "-pipe"])).countP isLinkCall = 0 := by
      rw [List.countP_eq_zero]
      intro e he
      obtain ⟨f, _, rfl⟩ := List.mem_map.mp he
      simp [isLinkCall]
    rw [h0]
    simp [isLinkCall, List.countP_cons]
